import Mathlib

/-!
Verification of ccolls: the linked list of `src/list.c` and the hash map of
`src/hashmap.c`.

The C program works on heap-allocated nodes linked by raw pointers.  The
embedding keeps that: a heap is a finite table of cells indexed by address, a
pointer is `none` (NULL) or an address, and every C function becomes a pure
function on the machine state.  A result `none` means that the C program has
no defined result there: an `assert` aborted, or a NULL, freed or
uninitialised pointer was dereferenced.

Unsigned 64-bit arithmetic (`u64`) is written on `Nat` with explicit
reduction modulo `2 ^ 64`.  `malloc` is taken to succeed and to return a
fresh address.
-/

namespace CColls

/-! ## Machine model -/

/-- Modulus of the `u64` type. -/
def U64 : Nat := 2 ^ 64

/-- Address of a heap cell. -/
abbrev Addr := Nat

/-- C pointer to a node: `none` is `NULL`. -/
abbrev Ptr := Option Addr

/-- C `struct LNode`: the payload copied into the node (`value`, the `size`
bytes `memcpy` took from the caller), the link `next` and `size`. -/
structure LNode (V : Type) where
  value : V
  next : Ptr
  size : Nat
deriving DecidableEq, Repr

/-- Heap of nodes: cell `a` is `some n` while the node at address `a` is
allocated and `none` once it has been freed. -/
abbrev Heap (V : Type) := List (Option (LNode V))

/-- Dereference `p`: undefined for NULL, for a freed cell and for an address
that was never allocated. -/
def Heap.read {V : Type} (h : Heap V) : Ptr → Option (LNode V)
  | none => none
  | some a => (h.get? a).join

/-- Store through `p` (`p->field = ...`): the cell must be allocated. -/
def Heap.write {V : Type} (h : Heap V) (p : Ptr) (n : LNode V) : Option (Heap V) :=
  match p, h.read p with
  | some a, some _ => some (h.set a (some n))
  | _, _ => none

/-- The call `malloc(sizeof(LNode))` followed by the initialisation of the
node: the new cell gets the first address never used before. -/
def Heap.alloc {V : Type} (h : Heap V) (n : LNode V) : Heap V × Addr :=
  (h ++ [some n], h.length)

/-- The call `free(p)`: the cell must be allocated. -/
def Heap.free {V : Type} (h : Heap V) (p : Ptr) : Option (Heap V) :=
  match p, h.read p with
  | some a, some _ => some (h.set a none)
  | _, _ => none

/-- C `struct List`: `length`, `head`, `tail`. -/
structure CList where
  length : Nat
  head : Ptr
  tail : Ptr
deriving DecidableEq, Repr

/-- Machine state seen by the list functions: the node heap and the list
header their `List*` argument points to. -/
structure State (V : Type) where
  heap : Heap V
  list : CList
deriving DecidableEq, Repr

/-- Status codes returned by the functions of `list.c`.  The header that
declares them is not part of the sources at hand; the two constants are the
ones `list.c` names. -/
inductive Status where
  | LIST_OK
  | LIST_INDEX_ERROR
deriving DecidableEq, Repr

open Status

/-! ## `src/list.c` -/

/-- Function `LNode_Construct`: both assertions must hold (the payload exists, which
the type `V` expresses, and `size != 0`), then a node is allocated. -/
def LNode_Construct {V : Type} (h : Heap V) (value : V) (next : Ptr) (size : Nat) :
    Option (Heap V × Addr) :=
  if size = 0 then none else some (h.alloc { value := value, next := next, size := size })

/-- Function `LNode_Free`: frees the node and, first, every node behind it.  `fuel`
bounds the depth of the recursion; a chain longer than the heap is cyclic,
and on a cyclic chain the C function does not return. -/
def LNode_Free {V : Type} (h : Heap V) : Nat → Ptr → Option (Heap V)
  | 0, _ => none
  | fuel + 1, node => do
    let nd ← h.read node
    let h1 ← (match nd.next with
      | none => some h
      | some a => LNode_Free h fuel (some a))
    h1.free node

/-- Function `List_Construct`: an empty list; the heap holds no node yet. -/
def List_Construct {V : Type} : State V :=
  { heap := [], list := { length := 0, head := none, tail := none } }

/-- Function `List_IsEmpty`. -/
def List_IsEmpty (list : CList) : Bool := list.length == 0

/-- Function `List_IsFirst`. -/
def List_IsFirst (_list : CList) (index : Nat) : Bool := index == 0

/-- Function `List_IsLast`: `index == list->length - 1` in `u64` arithmetic. -/
def List_IsLast (list : CList) (index : Nat) : Bool :=
  index == (list.length + U64 - 1) % U64

/-- Function `List_InRange`: `index >= 0 && index < list->length`. -/
def List_InRange (list : CList) (index : Nat) : Bool :=
  decide (index ≥ 0) && decide (index < list.length)

/-- The `while` loop of `_List_LoopUntil`.  The result is `some (some a)` when
the loop assigns `*outNode = a`, `some none` when it ends at NULL without
assigning.  Since `currentIndex` runs through all of `u64`, the loop body runs
at most `2 ^ 64` times; `fuel` counts the evaluations of the loop condition. -/
def loopUntil {V : Type} (h : Heap V) (index : Nat) : Nat → Nat → Ptr → Option (Option Addr)
  | 0, _, _ => none
  | _ + 1, _, none => some none
  | fuel + 1, currentIndex, some a =>
    if currentIndex = index then some (some a)
    else match h.read (some a) with
      | none => none
      | some nd => loopUntil h index fuel ((currentIndex + 1) % U64) nd.next

/-- Function `_List_LoopUntil(list, start, end, index, outNode)`: starts at
`list->head->next` with `currentIndex = start`. -/
def _List_LoopUntil {V : Type} (s : State V) (start _end index : Nat) : Option (Option Addr) := do
  let hd ← s.heap.read s.list.head
  loopUntil s.heap index (U64 + 1) start hd.next

/-- Function `List_GetNode`: the status and what was stored in `*outNode` (`none` when
nothing was stored). -/
def List_GetNode {V : Type} (s : State V) (index : Nat) : Option (Status × Option Ptr) :=
  if List_IsEmpty s.list then some (LIST_INDEX_ERROR, none)
  else if !List_InRange s.list index then some (LIST_INDEX_ERROR, none)
  else if List_IsFirst s.list index then some (LIST_OK, some s.list.head)
  else if List_IsLast s.list index then some (LIST_OK, some s.list.tail)
  else do
    let out ← _List_LoopUntil s 1 s.list.length index
    some (LIST_OK, out.map some)

/-- Function `List_Get`: the local `node` is uninitialised until `List_GetNode` stores
into it, and `node->value` is read whatever the exit code is. -/
def List_Get {V : Type} (s : State V) (index : Nat) : Option (Status × V) := do
  let (exitCode, out) ← List_GetNode s index
  let node ← out
  let nd ← s.heap.read node
  some (exitCode, nd.value)

/-- Function `List_PushBack`: the new state and the returned length. -/
def List_PushBack {V : Type} (s : State V) (value : V) (size : Nat) : Option (State V × Nat) := do
  let s1 : State V ← (if List_IsEmpty s.list then do
      let (h, a) ← LNode_Construct s.heap value none size
      some { heap := h, list := { s.list with head := some a, tail := some a } }
    else if s.list.length = 1 then do
      let (h, a) ← LNode_Construct s.heap value none size
      let hd ← h.read s.list.head
      let h1 ← h.write s.list.head { hd with next := some a }
      some { heap := h1, list := { s.list with tail := some a } }
    else do
      let (h, a) ← LNode_Construct s.heap value none size
      let tl ← h.read s.list.tail
      let h1 ← h.write s.list.tail { tl with next := some a }
      let tl1 ← h1.read s.list.tail
      some { heap := h1, list := { s.list with tail := tl1.next } })
  let length := (s1.list.length + 1) % U64
  some ({ s1 with list := { s1.list with length := length } }, length)

/-- Function `List_PushFront`: the new state and the returned length. -/
def List_PushFront {V : Type} (s : State V) (value : V) (size : Nat) : Option (State V × Nat) := do
  let s1 : State V ← (if List_IsEmpty s.list then do
      let (h, a) ← LNode_Construct s.heap value none size
      some { heap := h, list := { s.list with head := some a, tail := some a } }
    else do
      let (h, a) ← LNode_Construct s.heap value s.list.head size
      some { heap := h, list := { s.list with head := some a } })
  let length := (s1.list.length + 1) % U64
  some ({ s1 with list := { s1.list with length := length } }, length)

/-- Function `List_Insert`.  The local `before` is uninitialised unless
`_List_LoopUntil` assigns it. -/
def List_Insert {V : Type} (s : State V) (index : Nat) (value : V) (size : Nat) :
    Option (State V × Status) :=
  if List_IsEmpty s.list || List_IsLast s.list index then do
    let (s1, _) ← List_PushBack s value size
    some (s1, LIST_OK)
  else if List_IsFirst s.list index then do
    let (s1, _) ← List_PushFront s value size
    some (s1, LIST_OK)
  else if !List_InRange s.list index then some (s, LIST_INDEX_ERROR)
  else do
    let out ← _List_LoopUntil s 1 s.list.length ((index + U64 - 1) % U64)
    let before ← out
    let bn ← s.heap.read (some before)
    let (h, a) ← LNode_Construct s.heap value bn.next size
    let h1 ← h.write (some before) { bn with next := some a }
    some ({ heap := h1, list := { s.list with length := (s.list.length + 1) % U64 } }, LIST_OK)

/-- Function `List_Pop`: the new state, the status and what was stored in `*outNode`.
The test `index < 0` on a `u64` never holds. -/
def List_Pop {V : Type} (s : State V) (index : Nat) : Option (State V × Status × Option Ptr) :=
  if List_IsEmpty s.list then some (s, LIST_INDEX_ERROR, none)
  else if index ≥ s.list.length then some (s, LIST_INDEX_ERROR, none)
  else if List_IsFirst s.list index then do
    let hd ← s.heap.read s.list.head
    some ({ s with list := { s.list with head := hd.next,
                                          length := (s.list.length + U64 - 1) % U64 } },
          LIST_OK, some s.list.head)
  else do
    let out ← _List_LoopUntil s 1 s.list.length ((index + U64 - 1) % U64)
    let before ← out
    let bn ← s.heap.read (some before)
    let victim ← s.heap.read bn.next
    let h1 ← s.heap.write (some before) { bn with next := victim.next }
    some ({ heap := h1, list := { s.list with length := (s.list.length + U64 - 1) % U64 } },
          LIST_OK, some bn.next)

/-- Function `List_FreeItem`. -/
def List_FreeItem {V : Type} (s : State V) (index : Nat) : Option (State V × Status) :=
  if !List_InRange s.list index then some (s, LIST_INDEX_ERROR)
  else do
    let (s1, _, out) ← List_Pop s index
    let node ← out
    let nd ← s1.heap.read node
    let h1 ← s1.heap.write node { nd with next := none }
    let h2 ← LNode_Free h1 (h1.length + 1) node
    some ({ s1 with heap := h2 }, LIST_OK)

/-- Function `List_Clear`. -/
def List_Clear {V : Type} (s : State V) : Option (State V) :=
  if s.list.length = 0 then some s
  else do
    let h1 ← LNode_Free s.heap (s.heap.length + 1) s.list.head
    some { heap := h1, list := { length := 0, head := none, tail := none } }

/-! ## Specification vocabulary for the list -/

/-- Path of nodes in the heap: starting at pointer `p`, following `next`
visits exactly the cells `ns` (address and payload, in order) and arrives at
pointer `q`. -/
def Seg {V : Type} (h : Heap V) : Ptr → List (Addr × V) → Ptr → Prop
  | p, [], q => p = q
  | p, c :: ns, q =>
    p = some c.1 ∧ ∃ nd, h.read (some c.1) = some nd ∧ nd.value = c.2 ∧ Seg h nd.next ns q

/-- The chain that starts at `head` consists of the cells `ns`, ends in NULL,
and `length` counts it. -/
structure Chained {V : Type} (s : State V) (ns : List (Addr × V)) : Prop where
  len : s.list.length = ns.length
  bound : ns.length < U64
  chain : Seg s.heap s.list.head ns none

/-- Well-formed list over the cells `ns`: chained, and `tail` is the last
node of the chain (NULL when there is none). -/
structure WF {V : Type} (s : State V) (ns : List (Addr × V)) : Prop where
  chained : Chained s ns
  tail : s.list.tail = (ns.map Prod.fst).getLast?

/-- The state holds a well-formed list whose element sequence is `xs`. -/
def WellFormed {V : Type} (s : State V) (xs : List V) : Prop :=
  ∃ ns, WF s ns ∧ ns.map Prod.snd = xs

/-- Payload of the node `*outNode` after a call that stored `out` there. -/
def outValue {V : Type} (h : Heap V) (out : Option Ptr) : Option V := do
  let p ← out
  let nd ← h.read p
  some nd.value

/-- One push at an end of the list. -/
inductive Push (V : Type) where
  | back (value : V) (size : Nat)
  | front (value : V) (size : Nat)
deriving DecidableEq, Repr

/-- The `size` argument of a push. -/
def Push.size {V : Type} : Push V → Nat
  | .back _ n => n
  | .front _ n => n

/-- Run one push on the machine state. -/
def Push.run {V : Type} (s : State V) : Push V → Option (State V × Nat)
  | .back v n => List_PushBack s v n
  | .front v n => List_PushFront s v n

/-- Run a sequence of pushes; the second component lists the values the calls
returned, in order. -/
def runPushes {V : Type} : State V → List (Push V) → Option (State V × List Nat)
  | s, [] => some (s, [])
  | s, op :: ops => do
    let (s1, r) ← op.run s
    let (s2, rs) ← runPushes s1 ops
    some (s2, r :: rs)

/-- Reference sequence model of one push. -/
def Push.model {V : Type} (xs : List V) : Push V → List V
  | .back v _ => xs ++ [v]
  | .front v _ => v :: xs

/-- Reference sequence after replaying the pushes on the empty sequence. -/
def modelPushes {V : Type} (ops : List (Push V)) : List V :=
  ops.foldl Push.model []

/-- Call `List_Pop(list, 0, &out)` `n` times; each call contributes its status
and the payload of the node it handed out. -/
def popFront {V : Type} : Nat → State V → Option (State V × List (Status × Option V))
  | 0, s => some (s, [])
  | n + 1, s => do
    let (s1, st, out) ← List_Pop s 0
    let (s2, rest) ← popFront n s1
    some (s2, (st, outValue s1.heap out) :: rest)

/-! ## `src/hashmap.c`

The hash map is built from the `cs_` list, the pair, the value descriptor
and the hash function.  Of these only declarations (`include/cboxes/list.h`,
`include/cboxes/type.h`) are among the sources; their behaviour is taken
from the specification.  A bucket is never shared between two slots, so the
list of buckets is modelled by value, and a pointer to a bucket (`cs_List *`)
is the position of the bucket in `slots`, or `none` for NULL.  Keys are C
strings held by reference: a key is the address of the string, and `mem`
gives the bytes stored at an address (the strings are not modified while they
are keys of the map). -/

/-- C `enum cs_Status` of `include/cboxes/list.h`. -/
inductive cs_Status where
  | cs_OK
  | cs_INDEX_ERROR
  | cs_OUT_OF_RANGE
deriving DecidableEq, Repr

open cs_Status

/-- C `struct cs_Type` of `include/cboxes/type.h`: `size`, `isReference` and the
`copy` callback, given by the contents it leaves at `dest` for the contents
at `src`.  The `free` callback releases storage and leaves the contents of
the other values as they are; it has no counterpart here. -/
structure cs_Type (V : Type) where
  size : Nat
  isReference : Bool
  copy : V → V

/-- Modelled from the spec: `cs_Type_StoreValue`, missing from the sources:
"allocates `size` bytes and invokes `copy`, or simply retains the pointer
when `isReference` is true". -/
def cs_Type_StoreValue {V : Type} (type : cs_Type V) (value : V) : V :=
  if type.isReference then value else type.copy value

/-- Modelled from the spec: `struct cs_Pair`, missing from the sources:
"key: string, value: pointer to a value stored via a Value Descriptor, type:
back-reference to that descriptor"; the key is held by reference. -/
structure cs_Pair (V : Type) where
  key : Addr
  value : V
  type : cs_Type V

/-- Modelled from the spec: `cs_Pair_New`, missing from the sources: "stores
`key` by reference (not duplicated) and `value` via `type.store`". -/
def cs_Pair_New {V : Type} (key : Addr) (value : V) (type : cs_Type V) : cs_Pair V :=
  { key := key, value := cs_Type_StoreValue type value, type := type }

/-- Modelled from the spec: `cs_List`, whose implementation is missing from
the sources: an ordered sequence of stored values. -/
abbrev cs_List (α : Type) := List α

/-- Modelled from the spec: `cs_List_New`, an empty list. -/
def cs_List_New {α : Type} : cs_List α := []

/-- Modelled from the spec: `cs_List_PushBack`, insertion at the end. -/
def cs_List_PushBack {α : Type} (list : cs_List α) (value : α) : cs_List α :=
  list ++ [value]

/-- Modelled from the spec: `cs_List_IsEmpty`. -/
def cs_List_IsEmpty {α : Type} (list : cs_List α) : Bool := list.isEmpty

/-- Modelled from the spec: `cs_List_Get`, missing from the sources: "the
stored value pointer at `index`, or fails with `OutOfRange` if
`index >= length`, or `IndexError` if the list is empty".  The result is the
error status, or (status `cs_OK`) the stored value found at `index`. -/
def cs_List_Get {α : Type} (list : cs_List α) (index : Nat) : Except cs_Status α :=
  if list.isEmpty then .error cs_INDEX_ERROR
  else if h : index < list.length then .ok list[index]
  else .error cs_OUT_OF_RANGE

/-- The call `CS_LIST_GET(list, index, out)`, which `include/cboxes/list.h`
expands to `cs_List_Get(list, index, ((void**)out))`.  The argument `out` is
handed over by value and only cast: whatever `cs_List_Get` stores, it cannot
store it in the variable of the caller, which keeps the value it had.  The
result is the status of the lookup.  (With `out` NULL a store through it is
undefined already; the embedding lets the call return and meets the NULL
pointer at the next dereference of the variable.) -/
def CS_LIST_GET {α : Type} (list : cs_List α) (index : Nat) (_out : Option Nat) : cs_Status :=
  match cs_List_Get list index with
  | .error status => status
  | .ok _ => cs_OK

/-- Modelled from the spec: `cs_lose_lose_hash`, missing from the sources:
"classic lose-lose: sum of byte values", in 64-bit unsigned arithmetic. -/
def cs_lose_lose_hash (bytes : List Nat) : Nat := bytes.sum % U64

/-- C `struct cs_Hashmap`, as `hashmap.c` uses it: `slots`, `type`, `capacity`,
`count`. -/
structure cs_Hashmap (V : Type) where
  slots : cs_List (cs_List (cs_Pair V))
  type : cs_Type V
  capacity : Nat
  count : Nat

/-- Function `cs_Hashmap_New`: `capacity` calls of `cs_List_PushBack` with a new empty
bucket. -/
def cs_Hashmap_New {V : Type} (type : cs_Type V) (capacity : Nat) : cs_Hashmap V :=
  { slots := (List.range capacity).foldl (fun slots _ => cs_List_PushBack slots cs_List_New)
      cs_List_New,
    type := type, capacity := capacity, count := 0 }

/-- Function `cs_Hashmap_Hash`: the hash of the string at `key` modulo `capacity`;
division by zero has no defined result. -/
def cs_Hashmap_Hash {V : Type} (mem : Addr → List Nat) (hashmap : cs_Hashmap V) (key : Addr) :
    Option Nat :=
  if hashmap.capacity = 0 then none else some (cs_lose_lose_hash (mem key) % hashmap.capacity)

/-- The loop `CS_LIST_FOREACHV(slot, cs_Pair, pair, ...)` of `cs_Hashmap_Set`:
`i` is the position of `pair` in the bucket, `targetPair` the position of the
pair `targetPair` points to (`none` for NULL).  The test `pair->key == key`
compares the two pointers. -/
def scanSlot {V : Type} (key : Addr) : Nat → cs_List (cs_Pair V) → Option Nat → Option Nat
  | _, [], targetPair => targetPair
  | i, pair :: rest, targetPair =>
    scanSlot key (i + 1) rest (if pair.key = key then some i else targetPair)

/-- Lines 48 to 63 of `cs_Hashmap_Set`: what the call does to the bucket
`slot`. -/
def setInSlot {V : Type} (type : cs_Type V) (slot : cs_List (cs_Pair V)) (key : Addr) (value : V) :
    cs_List (cs_Pair V) :=
  if cs_List_IsEmpty slot then cs_List_PushBack slot (cs_Pair_New key value type)
  else
    match scanSlot key 0 slot none with
    | none => cs_List_PushBack slot (cs_Pair_New key value type)
    | some j =>
      match slot[j]? with
      | none => slot
      | some targetPair =>
        slot.set j { targetPair with value := cs_Type_StoreValue targetPair.type value }

/-- Function `cs_Hashmap_Set`: the new map and the returned status.  The local
`slot` starts as NULL and is passed to `CS_LIST_GET` by value, so it is still
NULL after the lookup; `CS_EXIT_ON_ERR` returns the status of the lookup when
it is not `cs_OK`; then `cs_List_IsEmpty(slot)` dereferences `slot`, and lines
48 to 63 work on the bucket `slot` points to. -/
def cs_Hashmap_Set {V : Type} (mem : Addr → List Nat) (hashmap : cs_Hashmap V) (key : Addr)
    (value : V) : Option (cs_Hashmap V × cs_Status) := do
  let index ← cs_Hashmap_Hash mem hashmap key
  let slot : Option Nat := none
  let status := CS_LIST_GET hashmap.slots index slot
  if status ≠ cs_OK then some (hashmap, status)
  else do
    let i ← slot
    let bucket ← hashmap.slots[i]?
    some ({ hashmap with slots := hashmap.slots.set i (setInSlot hashmap.type bucket key value) },
          cs_OK)

/-! ## Specification vocabulary for the hash map -/

/-- One call `cs_Hashmap_Set(map, key, value)`. -/
structure SetCall (V : Type) where
  key : Addr
  value : V

/-- Run a sequence of `cs_Hashmap_Set` calls; the second component lists the
returned statuses. -/
def runSets {V : Type} (mem : Addr → List Nat) :
    cs_Hashmap V → List (SetCall V) → Option (cs_Hashmap V × List cs_Status)
  | m, [] => some (m, [])
  | m, c :: cs => do
    let (m1, st) ← cs_Hashmap_Set mem m c.key c.value
    let (m2, sts) ← runSets mem m1 cs
    some (m2, st :: sts)

/-- The list after `List_PushBack` of 7. -/
def oneNode : State Nat :=
  { heap := [some { value := 7, next := none, size := 4 }],
    list := { length := 1, head := some 0, tail := some 0 } }

/-- The list after `List_PushBack` of 7, 8 and 9. -/
def threeNodes : State Nat :=
  { heap := [some { value := 7, next := some 1, size := 4 },
             some { value := 8, next := some 2, size := 4 },
             some { value := 9, next := none, size := 4 }],
    list := { length := 3, head := some 0, tail := some 2 } }

/-- The state `List_Pop(list, 2, &out)` leaves when run on `threeNodes`. -/
def threeNodesPopped : State Nat :=
  { heap := [some { value := 7, next := some 1, size := 4 },
             some { value := 8, next := none, size := 4 },
             some { value := 9, next := none, size := 4 }],
    list := { length := 2, head := some 0, tail := some 2 } }

/-- The list after `List_PushBack` of 7, 8, 9 and 10. -/
def fourNodes : State Nat :=
  { heap := [some { value := 7, next := some 1, size := 4 },
             some { value := 8, next := some 2, size := 4 },
             some { value := 9, next := some 3, size := 4 },
             some { value := 10, next := none, size := 4 }],
    list := { length := 4, head := some 0, tail := some 3 } }

/-- A by-value descriptor with a bytewise copy. -/
def shallowType : cs_Type Nat := { size := 8, isReference := false, copy := fun v => v }

/-- String memory with the string "a" at the two addresses 100 and 200 and
the string "b" at address 300. -/
def stringMem : Addr → List Nat := fun a =>
  if a = 100 then [97] else if a = 200 then [97] else if a = 300 then [98] else []

/-- Keys and values of the pairs of a map, bucket by bucket. -/
def cs_Hashmap.contents {V : Type} (m : cs_Hashmap V) : List (List (Addr × V)) :=
  m.slots.map fun slot => slot.map fun pair => (pair.key, pair.value)

/-- One call of the list interface. -/
inductive ListOp (V : Type) where
  | pushBack (value : V) (size : Nat)
  | pushFront (value : V) (size : Nat)
  | insert (index : Nat) (value : V) (size : Nat)
  | pop (index : Nat)
  | freeItem (index : Nat)
  | clear
deriving DecidableEq, Repr

/-- Run one call of the list interface; the returned values are dropped. -/
def ListOp.run {V : Type} (s : State V) : ListOp V → Option (State V)
  | .pushBack v n => (List_PushBack s v n).map Prod.fst
  | .pushFront v n => (List_PushFront s v n).map Prod.fst
  | .insert i v n => (List_Insert s i v n).map Prod.fst
  | .pop i => (List_Pop s i).map Prod.fst
  | .freeItem i => (List_FreeItem s i).map Prod.fst
  | .clear => List_Clear s

/-- Run a sequence of calls of the list interface. -/
def runOps {V : Type} : State V → List (ListOp V) → Option (State V)
  | s, [] => some s
  | s, op :: ops => do
    let s1 ← op.run s
    runOps s1 ops

/-- Follow `next` links `n` times, starting at `p`. -/
def walk {V : Type} (h : Heap V) : Nat → Ptr → Option Ptr
  | 0, p => some p
  | n + 1, p => do
    let nd ← h.read p
    walk h n nd.next

/-- Number of nodes reachable from `p` by following `next` links up to NULL;
`fuel` bounds the walk, and the result is `none` when the walk meets a cell
that is not allocated or does not end within `fuel` steps. -/
def chainLength {V : Type} (h : Heap V) : Nat → Ptr → Option Nat
  | _, none => some 0
  | 0, some _ => none
  | fuel + 1, some a => do
    let nd ← h.read (some a)
    let n ← chainLength h fuel nd.next
    some (n + 1)

/-- Number of nodes reachable from `head`. -/
def reachableNodes {V : Type} (s : State V) : Option Nat :=
  chainLength s.heap s.heap.length s.list.head

/-! ## Heap lemmas -/

section HeapLemmas
variable {V : Type}

theorem read_some_lt {h : Heap V} {a : Addr} {nd : LNode V}
    (hr : h.read (some a) = some nd) : a < h.length := by
  by_contra hlt
  have : h[a]? = none := List.getElem?_eq_none (Nat.le_of_not_lt hlt)
  simp [Heap.read, this] at hr

theorem read_append {h : Heap V} (l : Heap V) {a : Addr} (ha : a < h.length) :
    Heap.read (h ++ l) (some a) = h.read (some a) := by
  simp [Heap.read, List.getElem?_append_left ha]

theorem read_alloc_new (h : Heap V) (n : LNode V) :
    Heap.read (h ++ [some n]) (some h.length) = some n := by
  simp [Heap.read]

theorem read_set_ne (h : Heap V) {a b : Addr} (x : Option (LNode V)) (hab : a ≠ b) :
    Heap.read (h.set b x) (some a) = h.read (some a) := by
  simp [Heap.read, List.getElem?_set_ne (Ne.symm hab)]

theorem read_set_eq (h : Heap V) {b : Addr} (x : Option (LNode V)) (hb : b < h.length) :
    Heap.read (h.set b x) (some b) = x := by
  simp [Heap.read, hb]

theorem write_eq {h : Heap V} {a : Addr} {nd : LNode V} (n : LNode V)
    (hr : h.read (some a) = some nd) : h.write (some a) n = some (h.set a (some n)) := by
  simp [Heap.write, hr]

end HeapLemmas

/-! ## Lemmas on paths -/

section SegLemmas
variable {V : Type}

theorem Seg.append {h : Heap V} {l1 l2 : List (Addr × V)} {p q r : Ptr}
    (h1 : Seg h p l1 r) (h2 : Seg h r l2 q) : Seg h p (l1 ++ l2) q := by
  induction l1 generalizing p with
  | nil => simp only [Seg] at h1; subst h1; simpa using h2
  | cons c l ih =>
    obtain ⟨hp, nd, hr, hv, hs⟩ := h1
    exact ⟨hp, nd, hr, hv, ih hs⟩

theorem Seg.split {h : Heap V} {l1 l2 : List (Addr × V)} {p q : Ptr}
    (hs : Seg h p (l1 ++ l2) q) : ∃ r, Seg h p l1 r ∧ Seg h r l2 q := by
  induction l1 generalizing p with
  | nil => exact ⟨p, rfl, by simpa using hs⟩
  | cons c l ih =>
    obtain ⟨hp, nd, hr, hv, hs1⟩ := hs
    obtain ⟨r, h1, h2⟩ := ih hs1
    exact ⟨r, ⟨hp, nd, hr, hv, h1⟩, h2⟩

theorem Seg.lt_length {h : Heap V} {ns : List (Addr × V)} {p q : Ptr}
    (hs : Seg h p ns q) : ∀ c ∈ ns, c.1 < h.length := by
  induction ns generalizing p with
  | nil => simp
  | cons c l ih =>
    obtain ⟨_, nd, hr, _, hs1⟩ := hs
    intro d hd
    rcases List.mem_cons.1 hd with rfl | hd
    · exact read_some_lt hr
    · exact ih hs1 d hd

theorem Seg.grow {h : Heap V} (l : Heap V) {ns : List (Addr × V)} {p q : Ptr}
    (hs : Seg h p ns q) : Seg (h ++ l) p ns q := by
  induction ns generalizing p with
  | nil => exact hs
  | cons c ns ih =>
    obtain ⟨hp, nd, hr, hv, hs1⟩ := hs
    exact ⟨hp, nd, by rw [read_append l (read_some_lt hr)]; exact hr, hv, ih hs1⟩

theorem Seg.frame {h : Heap V} {ns : List (Addr × V)} {p q : Ptr} (b : Addr)
    (x : Option (LNode V)) (hs : Seg h p ns q) (hb : ∀ c ∈ ns, c.1 ≠ b) :
    Seg (h.set b x) p ns q := by
  induction ns generalizing p with
  | nil => exact hs
  | cons c ns ih =>
    obtain ⟨hp, nd, hr, hv, hs1⟩ := hs
    refine ⟨hp, nd, ?_, hv, ih hs1 (fun d hd => hb d (List.mem_cons_of_mem _ hd))⟩
    rw [read_set_ne h x (hb c (List.mem_cons_self _ _))]; exact hr

theorem Seg.det {h : Heap V} {ns ms : List (Addr × V)} {p : Ptr}
    (h1 : Seg h p ns none) (h2 : Seg h p ms none) : ns = ms := by
  induction ns generalizing p ms with
  | nil =>
    simp only [Seg] at h1; subst h1
    cases ms with
    | nil => rfl
    | cons c ms => exact absurd h2.1 (by simp)
  | cons c ns ih =>
    obtain ⟨hp, nd, hr, hv, hs1⟩ := h1
    cases ms with
    | nil => simp only [Seg] at h2; subst h2; simp at hp
    | cons d ms =>
      obtain ⟨hp2, nd2, hr2, hv2, hs2⟩ := h2
      have hcd : c.1 = d.1 := by rw [hp] at hp2; exact Option.some.inj hp2
      rw [← hcd, hr] at hr2
      have hnd : nd = nd2 := Option.some.inj hr2
      subst hnd
      have : c = d := Prod.ext hcd (by rw [← hv, ← hv2])
      rw [this, ih hs1 hs2]

/-- A cell occurs once on a path that ends in NULL. -/
theorem Seg.not_mem_after {h : Heap V} {c : Addr × V} {ns : List (Addr × V)} {p : Ptr}
    (hs : Seg h p (c :: ns) none) : ∀ d ∈ ns, d.1 ≠ c.1 := by
  intro d hd hdc
  obtain ⟨l1, l2, rfl⟩ := List.append_of_mem hd
  have hs' : Seg h p ((c :: l1) ++ d :: l2) none := by simpa using hs
  obtain ⟨r, h1, h2⟩ := Seg.split hs'
  have hr : r = p := by rw [h2.1, hs.1, hdc]
  subst hr
  have := Seg.det hs h2
  have hlen := congrArg List.length this
  simp at hlen
  omega

theorem Seg.nodup {h : Heap V} {ns : List (Addr × V)} {p : Ptr}
    (hs : Seg h p ns none) : (ns.map Prod.fst).Nodup := by
  induction ns generalizing p with
  | nil => simp
  | cons c ns ih =>
    have hnm := Seg.not_mem_after hs
    obtain ⟨_, nd, _, _, hs1⟩ := hs
    rw [List.map_cons, List.nodup_cons]
    refine ⟨?_, ih hs1⟩
    intro hmem
    obtain ⟨d, hd, hdc⟩ := List.mem_map.1 hmem
    exact hnm d hd hdc

end SegLemmas

/-! ## The list operations on well-formed lists -/

section ListLemmas
variable {V : Type}

theorem u64_pred {n : Nat} (h0 : 0 < n) (hn : n < U64) : (n + U64 - 1) % U64 = n - 1 := by
  have : n + U64 - 1 = (n - 1) + U64 := by omega
  rw [this, Nat.add_mod_right, Nat.mod_eq_of_lt (by omega)]

theorem u64_succ {n : Nat} (hn : n + 1 < U64) : (n + 1) % U64 = n + 1 := Nat.mod_eq_of_lt hn

theorem loopUntil_spec {h : Heap V} {ns : List (Addr × V)} {p : Ptr} (hs : Seg h p ns none)
    {index k : Nat} (ci fuel : Nat) {c : Addr × V} (hk : ci + k = index) (hc : ns[k]? = some c)
    (hidx : index < U64) (hfuel : k < fuel) :
    loopUntil h index fuel ci p = some (some c.1) := by
  induction ns generalizing p ci fuel k with
  | nil => simp at hc
  | cons d ns ih =>
    obtain ⟨hp, nd, hr, hv, hs1⟩ := hs
    subst hp
    cases fuel with
    | zero => omega
    | succ fuel =>
      cases k with
      | zero =>
        simp at hc; subst hc
        simp [loopUntil, ← hk]
      | succ k =>
        have hne : ci ≠ index := by omega
        simp only [List.getElem?_cons_succ] at hc
        simp only [loopUntil, hne, if_false, hr]
        rw [u64_succ (by omega)]
        exact ih hs1 _ _ (by omega) hc (by omega)

theorem Seg.read_mem {h : Heap V} {ns : List (Addr × V)} {p q : Ptr} (hs : Seg h p ns q) :
    ∀ c ∈ ns, ∃ nd, h.read (some c.1) = some nd ∧ nd.value = c.2 := by
  induction ns generalizing p with
  | nil => simp
  | cons d ns ih =>
    obtain ⟨_, nd, hr, hv, hs1⟩ := hs
    intro c hc
    rcases List.mem_cons.1 hc with rfl | hc
    · exact ⟨nd, hr, hv⟩
    · exact ih hs1 c hc

theorem getLast?_fst_of_getElem? {ns : List (Addr × V)} {c : Addr × V}
    (hc : ns[ns.length - 1]? = some c) : (ns.map Prod.fst).getLast? = some c.1 := by
  rw [List.getLast?_eq_getElem?]
  simp [hc]

theorem GetNode_WF {s : State V} {ns : List (Addr × V)} (hwf : WF s ns) {i : Nat} {c : Addr × V}
    (hc : ns[i]? = some c) : List_GetNode s i = some (LIST_OK, some (some c.1)) := by
  obtain ⟨⟨hlen, hb, hch⟩, htl⟩ := hwf
  have hi : i < ns.length := (List.getElem?_eq_some.1 hc).1
  have hemp : List_IsEmpty s.list = false := by
    simp only [List_IsEmpty, hlen, beq_eq_false_iff_ne]; omega
  have hrng : List_InRange s.list i = true := by simp [List_InRange, hlen, hi]
  have hlast : List_IsLast s.list i = decide (i = ns.length - 1) := by
    simp only [List_IsLast, hlen, u64_pred (Nat.zero_lt_of_lt hi) hb]
    by_cases h : i = ns.length - 1 <;> simp [h]
  simp only [List_GetNode, hemp, hrng, hlast, List_IsFirst, Bool.not_true, Bool.false_eq_true,
    if_false]
  cases ns with
  | nil => simp at hi
  | cons d ns =>
    obtain ⟨hp, nd, hr, hv, hs1⟩ := hch
    simp only [List.length_cons] at hi hb
    cases i with
    | zero =>
      simp at hc; subst hc
      simp [hp]
    | succ i =>
      by_cases hil : i + 1 = (d :: ns).length - 1
      · have : (d :: ns)[(d :: ns).length - 1]? = some c := by rw [← hil]; exact hc
        rw [htl, getLast?_fst_of_getElem? this, if_neg (by simp), if_pos (decide_eq_true hil)]
      · simp only [List.getElem?_cons_succ] at hc
        have hl := loopUntil_spec hs1 1 (U64 + 1) (Nat.add_comm 1 i) hc
          (by omega) (by omega)
        rw [if_neg (by simp), if_neg (by rw [decide_eq_true_eq]; exact hil)]
        simp [_List_LoopUntil, hp, hr, hl]

theorem PushFront_eq {s : State V} (v : V) {size : Nat} (hsz : size ≠ 0)
    (hroom : s.list.length + 1 < U64) :
    List_PushFront s v size = some
      ({ heap := s.heap ++ [some { value := v, next := if s.list.length = 0 then none else s.list.head, size := size }],
         list := { length := s.list.length + 1, head := some s.heap.length,
                   tail := if s.list.length = 0 then some s.heap.length else s.list.tail } },
       s.list.length + 1) := by
  by_cases h0 : s.list.length = 0
  · simp [List_PushFront, List_IsEmpty, h0, LNode_Construct, hsz, Heap.alloc, U64]
  · simp [List_PushFront, List_IsEmpty, h0, LNode_Construct, hsz, Heap.alloc, u64_succ hroom]

theorem PushFront_WF {s : State V} {ns : List (Addr × V)} (hwf : WF s ns) (v : V) {size : Nat}
    (hsz : size ≠ 0) (hroom : ns.length + 1 < U64) :
    ∃ s', List_PushFront s v size = some (s', ns.length + 1) ∧
      WF s' ((s.heap.length, v) :: ns) := by
  obtain ⟨⟨hlen, hb, hch⟩, htl⟩ := hwf
  rw [PushFront_eq v hsz (by rw [hlen]; exact hroom), hlen]
  refine ⟨_, rfl, ⟨⟨by simp, by simpa using hroom, ?_⟩, ?_⟩⟩
  · refine ⟨rfl, _, read_alloc_new _ _, rfl, ?_⟩
    cases ns with
    | nil => simp [Seg]
    | cons d ns =>
      simp only [List.length_cons, Nat.add_one_ne_zero, if_false]
      exact Seg.grow _ hch
  · cases ns with
    | nil => simp
    | cons d ns => simp [htl]

theorem Seg.last_node {h : Heap V} {init : List (Addr × V)} {t : Addr × V} {p : Ptr}
    (hs : Seg h p (init ++ [t]) none) :
    ∃ nd, h.read (some t.1) = some nd ∧ nd.value = t.2 ∧ nd.next = none ∧
      Seg h p init (some t.1) ∧ ∀ c ∈ init, c.1 ≠ t.1 := by
  have hnd := Seg.nodup hs
  obtain ⟨r, h1, h2⟩ := Seg.split hs
  obtain ⟨hr, nd, hrd, hv, hn⟩ := h2
  simp only [Seg] at hn
  subst hr
  refine ⟨nd, hrd, hv, hn, h1, ?_⟩
  intro c hc hct
  rw [List.map_append, List.nodup_append] at hnd
  exact hnd.2.2 (List.mem_map_of_mem _ hc) (by simp [hct])

theorem Seg.link_last {h : Heap V} {init : List (Addr × V)} {t : Addr × V} {p : Ptr}
    {nd : LNode V} (hs : Seg h p (init ++ [t]) none) (hr : h.read (some t.1) = some nd)
    (v : V) (size : Nat) :
    Seg ((h ++ [some ({ value := v, next := none, size := size } : LNode V)]).set t.1
          (some ({ nd with next := some h.length } : LNode V))) p
      ((init ++ [t]) ++ [(h.length, v)]) none := by
  obtain ⟨nd', hr', hv, _, hinit, hne⟩ := Seg.last_node hs
  rw [hr] at hr'
  have hnd : nd = nd' := Option.some.inj hr'
  subst hnd
  have hlt := read_some_lt hr
  rw [List.append_assoc]
  refine Seg.append (Seg.frame _ _ (Seg.grow _ hinit) hne) ?_
  have hlt' : t.1 < (h ++ [some ({ value := v, next := none, size := size } : LNode V)]).length := by
    rw [List.length_append]; exact Nat.lt_add_right _ hlt
  refine ⟨rfl, _, read_set_eq _ _ hlt', hv, rfl,
    ({ value := v, next := none, size := size } : LNode V), ?_, rfl, rfl⟩
  rw [read_set_ne _ _ (Nat.ne_of_gt hlt)]
  exact read_alloc_new _ _

theorem PushBack_WF {s : State V} {ns : List (Addr × V)} (hwf : WF s ns) (v : V) {size : Nat}
    (hsz : size ≠ 0) (hroom : ns.length + 1 < U64) :
    ∃ s', List_PushBack s v size = some (s', ns.length + 1) ∧
      WF s' (ns ++ [(s.heap.length, v)]) := by
  obtain ⟨⟨hlen, hb, hch⟩, htl⟩ := hwf
  have hroom' : s.list.length + 1 < U64 := by rw [hlen]; exact hroom
  rw [← hlen]
  rcases List.eq_nil_or_concat ns with rfl | ⟨init, t, hnt⟩
  on_goal 2 => rw [List.concat_eq_append] at hnt; subst hnt
  · simp only [Seg] at hch
    simp only [List.length_nil] at hlen
    refine ⟨{ heap := s.heap ++ [some { value := v, next := none, size := size }],
              list := { length := 1, head := some s.heap.length, tail := some s.heap.length } },
            ?_, ⟨⟨rfl, by simpa using hroom, ?_⟩, by simp⟩⟩
    · simp [List_PushBack, List_IsEmpty, hlen, LNode_Construct, hsz, Heap.alloc, U64]
    · exact ⟨rfl, _, read_alloc_new _ _, rfl, rfl⟩
  · obtain ⟨nd, hr, hv, hn, hinit, hne⟩ := Seg.last_node hch
    have hlt := read_some_lt hr
    have htl' : s.list.tail = some t.1 := by simp [htl]
    have hr1 : Heap.read (s.heap ++ [some { value := v, next := none, size := size }])
        (some t.1) = some nd := by rw [read_append _ hlt]; exact hr
    have hlink := Seg.link_last hch hr v size
    refine ⟨{ heap := (s.heap ++ [some ({ value := v, next := none, size := size } : LNode V)]).set
                t.1 (some ({ nd with next := some s.heap.length } : LNode V)),
              list := { length := s.list.length + 1, head := s.list.head,
                        tail := some s.heap.length } },
            ?_, ⟨⟨by simp [hlen], by simpa using hroom, hlink⟩, by simp⟩⟩
    have hne0 : List_IsEmpty s.list = false := by simp [List_IsEmpty, hlen]
    have hlt' : t.1 < (s.heap ++
        [some ({ value := v, next := none, size := size } : LNode V)]).length := by
      rw [List.length_append]; exact Nat.lt_add_right _ hlt
    by_cases h1 : s.list.length = 1
    · have hinit0 : init = [] := by
        have : init.length = 0 := by simp at hlen; omega
        exact List.length_eq_zero.1 this
      subst hinit0
      simp only [Seg] at hinit
      simp [List_PushBack, hne0, h1, LNode_Construct, hsz, Heap.alloc, hinit, hr1,
        write_eq _ hr1, U64]
    · simp [List_PushBack, hne0, h1, LNode_Construct, hsz, Heap.alloc, htl', hr1,
        write_eq _ hr1, read_set_eq _ _ hlt', u64_succ hroom']

theorem LoopUntil_Chained {s : State V} {ns : List (Addr × V)} (hch : Chained s ns) {j e : Nat}
    {c : Addr × V} (hj : 1 ≤ j) (hc : ns[j]? = some c) :
    _List_LoopUntil s 1 e j = some (some c.1) := by
  obtain ⟨hlen, hb, hs⟩ := hch
  have hjl : j < ns.length := (List.getElem?_eq_some.1 hc).1
  cases ns with
  | nil => simp at hjl
  | cons d ns =>
    obtain ⟨hp, nd, hr, hv, hs1⟩ := hs
    simp only [List.length_cons] at hjl hb
    obtain ⟨k, rfl⟩ : ∃ k, j = k + 1 := ⟨j - 1, by omega⟩
    simp only [List.getElem?_cons_succ] at hc
    have hl := loopUntil_spec hs1 1 (U64 + 1) (Nat.add_comm 1 k) hc
      (by omega) (by omega)
    simp [_List_LoopUntil, hp, hr, hl]

theorem Pop0_Chained {s : State V} {c : Addr × V} {ns : List (Addr × V)}
    (hch : Chained s (c :: ns)) :
    ∃ s', List_Pop s 0 = some (s', LIST_OK, some (some c.1)) ∧ Chained s' ns ∧
      s'.heap = s.heap ∧ s'.list.tail = s.list.tail := by
  obtain ⟨hlen, hb, hs⟩ := hch
  obtain ⟨hp, nd, hr, hv, hs1⟩ := hs
  simp only [List.length_cons] at hlen hb
  have hpred : (s.list.length + U64 - 1) % U64 = ns.length := by
    rw [u64_pred (by omega) (by omega), hlen]; rfl
  refine ⟨{ s with list := { s.list with head := nd.next, length := ns.length } }, ?_,
    ⟨rfl, by omega, hs1⟩, rfl, rfl⟩
  simp [List_Pop, List_IsEmpty, List_IsFirst, hlen, hp, hr, Nat.mod_eq_of_lt (by omega : ns.length < U64)]

theorem outValue_mem {h : Heap V} {ns : List (Addr × V)} {p q : Ptr} (hs : Seg h p ns q)
    {c : Addr × V} (hc : c ∈ ns) : outValue h (some (some c.1)) = some c.2 := by
  obtain ⟨nd, hr, hv⟩ := Seg.read_mem hs c hc
  simp [outValue, hr, hv]

theorem popFront_Chained {ns : List (Addr × V)} : ∀ {s : State V}, Chained s ns →
    ∃ s', popFront ns.length s = some (s', ns.map fun c => (LIST_OK, some c.2)) ∧
      s'.list.length = 0 := by
  induction ns with
  | nil => intro s hch; exact ⟨s, rfl, hch.len⟩
  | cons c ns ih =>
    intro s hch
    obtain ⟨s1, hpop, hch1, hheap, _⟩ := Pop0_Chained hch
    obtain ⟨s2, hrest, hl⟩ := ih hch1
    refine ⟨s2, ?_, hl⟩
    have hv := outValue_mem hch.chain (List.mem_cons_self c ns)
    simp [popFront, hpop, hrest, hheap, hv]

theorem WF_Construct : WF (List_Construct : State V) [] :=
  ⟨⟨rfl, by simp [U64], rfl⟩, rfl⟩

theorem Push_run_WF {s : State V} {ns : List (Addr × V)} (hwf : WF s ns) (op : Push V)
    (hsz : op.size ≠ 0) (hroom : ns.length + 1 < U64) :
    ∃ s' ns', op.run s = some (s', ns.length + 1) ∧ WF s' ns' ∧
      ns'.map Prod.snd = Push.model (ns.map Prod.snd) op ∧ ns'.length = ns.length + 1 := by
  cases op with
  | back v n =>
    obtain ⟨s', h1, h2⟩ := PushBack_WF hwf v hsz hroom
    exact ⟨s', _, h1, h2, by simp [Push.model], by simp⟩
  | front v n =>
    obtain ⟨s', h1, h2⟩ := PushFront_WF hwf v hsz hroom
    exact ⟨s', _, h1, h2, by simp [Push.model], by simp⟩

theorem runPushes_WF (ops : List (Push V)) : ∀ {s : State V} {ns : List (Addr × V)}, WF s ns →
    (∀ op ∈ ops, op.size ≠ 0) → ns.length + ops.length < U64 →
    ∃ s' ns', runPushes s ops = some (s', List.range' (ns.length + 1) ops.length) ∧ WF s' ns' ∧
      ns'.map Prod.snd = ops.foldl Push.model (ns.map Prod.snd) ∧
      ns'.length = ns.length + ops.length := by
  induction ops with
  | nil => intro s ns hwf _ _; exact ⟨s, ns, rfl, hwf, rfl, rfl⟩
  | cons op ops ih =>
    intro s ns hwf hsz hroom
    simp only [List.length_cons] at hroom
    obtain ⟨s1, ns1, hrun, hwf1, hmod, hl1⟩ :=
      Push_run_WF hwf op (hsz op (List.mem_cons_self _ _)) (by omega)
    obtain ⟨s2, ns2, hrun2, hwf2, hmod2, hl2⟩ :=
      ih hwf1 (fun o ho => hsz o (List.mem_cons_of_mem _ ho)) (by omega)
    refine ⟨s2, ns2, ?_, hwf2, ?_, by simp; omega⟩
    · simp [runPushes, hrun, hrun2, hl1, List.range'_succ]
    · rw [hmod2, hmod]; rfl

end ListLemmas

/-! ## Further lemmas on the list operations -/

section ListLemmas2
variable {V : Type}

theorem modelPushes_length (ops : List (Push V)) (xs : List V) :
    (ops.foldl Push.model xs).length = xs.length + ops.length := by
  induction ops generalizing xs with
  | nil => rfl
  | cons op ops ih =>
    rw [List.foldl_cons, ih]
    cases op <;> simp [Push.model] <;> omega

theorem foldl_model_back (vs : List (V × Nat)) (xs : List V) :
    (vs.map fun p => Push.back p.1 p.2).foldl Push.model xs = xs ++ vs.map Prod.fst := by
  induction vs generalizing xs with
  | nil => simp
  | cons p vs ih => simp [List.foldl_cons, Push.model, ih]

theorem foldl_model_front (vs : List (V × Nat)) (xs : List V) :
    (vs.map fun p => Push.front p.1 p.2).foldl Push.model xs
      = (vs.map Prod.fst).reverse ++ xs := by
  induction vs generalizing xs with
  | nil => simp
  | cons p vs ih => simp [List.foldl_cons, Push.model, ih]

theorem push_then_popFront (ops : List (Push V)) (hsize : ∀ op ∈ ops, op.size ≠ 0)
    (hlen : ops.length < U64) :
    ∃ s s', runPushes List_Construct ops = some (s, List.range' 1 ops.length) ∧
      popFront ops.length s = some (s', (modelPushes ops).map fun v => (LIST_OK, some v)) ∧
      s'.list.length = 0 := by
  obtain ⟨s, ns, hrun, hwf, hmod, hl⟩ :=
    runPushes_WF ops (WF_Construct : WF (List_Construct : State V) []) hsize (by simpa using hlen)
  simp only [List.length_nil, Nat.zero_add, List.map_nil] at hrun hmod hl
  obtain ⟨s', hpop, hz⟩ := popFront_Chained hwf.chained
  refine ⟨s, s', hrun, ?_, hz⟩
  rw [← hl, hpop, modelPushes, ← hmod, List.map_map]
  rfl

theorem isLast_WF {s : State V} {ns : List (Addr × V)} (hch : Chained s ns) (hne : ns ≠ [])
    (i : Nat) : List_IsLast s.list i = decide (i = ns.length - 1) := by
  have h0 : 0 < ns.length := List.length_pos.2 hne
  simp only [List_IsLast, hch.len, u64_pred h0 hch.bound]
  by_cases h : i = ns.length - 1 <;> simp [h]

theorem Seg.mid_node {h : Heap V} {pre post : List (Addr × V)} {b : Addr × V} {p : Ptr}
    (hs : Seg h p (pre ++ b :: post) none) :
    ∃ nd, h.read (some b.1) = some nd ∧ nd.value = b.2 ∧ Seg h p pre (some b.1) ∧
      Seg h nd.next post none ∧ (∀ c ∈ pre, c.1 ≠ b.1) ∧ (∀ c ∈ post, c.1 ≠ b.1) := by
  have hnd := Seg.nodup hs
  obtain ⟨r, h1, h2⟩ := Seg.split hs
  have hpost := Seg.not_mem_after h2
  obtain ⟨hr, nd, hrd, hv, hn⟩ := h2
  subst hr
  refine ⟨nd, hrd, hv, h1, hn, ?_, hpost⟩
  intro c hc hcb
  rw [List.map_append, List.nodup_append] at hnd
  exact hnd.2.2 (List.mem_map_of_mem _ hc) (by simp [hcb])

theorem Insert_mid {s : State V} {pre post : List (Addr × V)} {b : Addr × V}
    (hwf : WF s (pre ++ b :: post)) (hpre : pre ≠ []) (hpost : 2 ≤ post.length) (v : V)
    {size : Nat}
    (hsz : size ≠ 0) (hroom : (pre ++ b :: post).length + 1 < U64) :
    ∃ s', List_Insert s (pre.length + 1) v size = some (s', LIST_OK) ∧
      WF s' (pre ++ b :: (s.heap.length, v) :: post) := by
  obtain ⟨hch, htl⟩ := hwf
  obtain ⟨nd, hr, hv, hpr, hpo, hne1, hne2⟩ := Seg.mid_node hch.chain
  have hlt := read_some_lt hr
  have hlen := hch.len
  have hb := hch.bound
  simp only [List.length_append, List.length_cons] at hlen hb hroom
  have hpl : 0 < pre.length := List.length_pos.2 hpre
  have hemp : List_IsEmpty s.list = false := by
    simp only [List_IsEmpty, hlen, beq_eq_false_iff_ne]; omega
  have hlast : List_IsLast s.list (pre.length + 1) = false := by
    rw [isLast_WF hch (by simp), decide_eq_false_iff_not, List.length_append, List.length_cons]
    omega
  have hfirst : List_IsFirst s.list (pre.length + 1) = false := by simp [List_IsFirst]
  have hrng : List_InRange s.list (pre.length + 1) = true := by
    simp only [List_InRange, hlen, ge_iff_le, Nat.zero_le, decide_True, Bool.true_and,
      decide_eq_true_eq]; omega
  have hidx : (pre.length + 1 + U64 - 1) % U64 = pre.length := by
    rw [u64_pred (by omega) (by omega)]; rfl
  have hloop : _List_LoopUntil s 1 s.list.length pre.length = some (some b.1) :=
    LoopUntil_Chained hch hpl (by rw [List.getElem?_append_right (Nat.le_refl _)]; simp)
  have hr1 : Heap.read (s.heap ++ [some ({ value := v, next := nd.next, size := size } : LNode V)])
      (some b.1) = some nd := by rw [read_append _ hlt]; exact hr
  have hlt' : b.1 < (s.heap ++
      [some ({ value := v, next := nd.next, size := size } : LNode V)]).length := by
    rw [List.length_append]; exact Nat.lt_add_right _ hlt
  refine ⟨{ heap := (s.heap ++ [some ({ value := v, next := nd.next, size := size } : LNode V)]).set
              b.1 (some ({ nd with next := some s.heap.length } : LNode V)),
            list := { s.list with length := s.list.length + 1 } }, ?_, ⟨⟨?_, ?_, ?_⟩, ?_⟩⟩
  · simp [List_Insert, hemp, hlast, hfirst, hrng, Nat.mod_eq_of_lt (by omega : pre.length < U64),
      hloop, hr, LNode_Construct, hsz,
      Heap.alloc, write_eq _ hr1, u64_succ (by omega : s.list.length + 1 < U64)]
  · simp [hlen]; omega
  · simp; omega
  · refine Seg.append (Seg.frame _ _ (Seg.grow _ hpr) hne1) ?_
    refine ⟨rfl, _, read_set_eq _ _ hlt', hv, rfl,
      ({ value := v, next := nd.next, size := size } : LNode V), ?_, rfl, ?_⟩
    · rw [read_set_ne _ _ (Nat.ne_of_gt hlt)]
      exact read_alloc_new _ _
    · exact Seg.frame _ _ (Seg.grow _ hpo) hne2
  · obtain ⟨q, post', rfl⟩ := List.exists_cons_of_ne_nil
      (List.ne_nil_of_length_pos (by omega : 0 < post.length))
    simp [htl, List.getLast?_append]

theorem Insert_last {s : State V} {ns : List (Addr × V)} (hwf : WF s ns) (hne : ns ≠ [])
    (v : V) {size : Nat} (hsz : size ≠ 0) (hroom : ns.length + 1 < U64) :
    ∃ s', List_Insert s (ns.length - 1) v size = some (s', LIST_OK) ∧
      WF s' (ns ++ [(s.heap.length, v)]) := by
  obtain ⟨s', hpush, hwf'⟩ := PushBack_WF hwf v hsz hroom
  refine ⟨s', ?_, hwf'⟩
  simp [List_Insert, isLast_WF hwf.chained hne, hpush]

theorem Insert_first {s : State V} {ns : List (Addr × V)} (hwf : WF s ns) (h2 : 2 ≤ ns.length)
    (v : V) {size : Nat} (hsz : size ≠ 0) (hroom : ns.length + 1 < U64) :
    ∃ s', List_Insert s 0 v size = some (s', LIST_OK) ∧
      WF s' ((s.heap.length, v) :: ns) := by
  obtain ⟨s', hpush, hwf'⟩ := PushFront_WF hwf v hsz hroom
  refine ⟨s', ?_, hwf'⟩
  have hne : ns ≠ [] := List.ne_nil_of_length_pos (by omega)
  have hemp : List_IsEmpty s.list = false := by
    simp only [List_IsEmpty, hwf.chained.len, beq_eq_false_iff_ne]; omega
  have hlast : List_IsLast s.list 0 = false := by
    rw [isLast_WF hwf.chained hne, decide_eq_false_iff_not]; omega
  simp [List_Insert, hemp, hlast, List_IsFirst, hpush]

theorem WellFormed.unique {s : State V} {xs ys : List V} (hx : WellFormed s xs)
    (hy : WellFormed s ys) : xs = ys := by
  obtain ⟨ns, hns, rfl⟩ := hx
  obtain ⟨ms, hms, rfl⟩ := hy
  rw [Seg.det hns.chained.chain hms.chained.chain]

/-- On a list of length 0, `List_GetNode`, `List_Pop` and `List_FreeItem`
return `LIST_INDEX_ERROR` and change nothing, and `List_Get` reads through
its uninitialised local `node`. -/
theorem empty_list_calls (s : State V) (hempty : s.list.length = 0) (index : Nat) :
    List_GetNode s index = some (LIST_INDEX_ERROR, none) ∧
    List_Pop s index = some (s, LIST_INDEX_ERROR, none) ∧
    List_FreeItem s index = some (s, LIST_INDEX_ERROR) ∧
    List_Get s index = none := by
  simp [List_GetNode, List_Pop, List_FreeItem, List_Get, List_IsEmpty, List_InRange, hempty]

theorem isLast_of_length_le {l : CList} {index : Nat} (hne : l.length ≠ 0)
    (hidx : l.length ≤ index) : List_IsLast l index = false := by
  simp only [List_IsLast, beq_eq_false_iff_ne]
  have hU : 0 < U64 := by simp [U64]
  by_cases hl : l.length < U64
  · rw [u64_pred (Nat.pos_of_ne_zero hne) hl]; omega
  · have := Nat.mod_lt (l.length + U64 - 1) hU
    omega

end ListLemmas2

/-! ## Lemmas on the hash map -/

section HashmapLemmas
variable {V : Type}

end HashmapLemmas

/-! ## The loop of `_List_LoopUntil` when it assigns nothing -/

section ListLemmas3
variable {V : Type}

theorem loopUntil_unassigned {h : Heap V} {ns : List (Addr × V)} {p : Ptr}
    (hs : Seg h p ns none) {index : Nat} (ci fuel : Nat)
    (hne : ∀ j, j < ns.length → (ci + j) % U64 ≠ index) (hci : ci < U64)
    (hfuel : ns.length < fuel) :
    loopUntil h index fuel ci p = some none := by
  induction ns generalizing p ci fuel with
  | nil =>
    simp only [Seg] at hs; subst hs
    cases fuel with
    | zero => simp at hfuel
    | succ fuel => rfl
  | cons d ns ih =>
    obtain ⟨hp, nd, hr, _, hs1⟩ := hs
    subst hp
    cases fuel with
    | zero => simp at hfuel
    | succ fuel =>
      have h0 : ci ≠ index := by
        have := hne 0 (by simp)
        rwa [Nat.add_zero, Nat.mod_eq_of_lt hci] at this
      simp only [loopUntil, h0, if_false, hr]
      refine ih hs1 _ _ ?_ (Nat.mod_lt _ (by simp [U64])) (by simpa using hfuel)
      intro j hj
      have := hne (j + 1) (by simpa using hj)
      rwa [Nat.mod_add_mod, Nat.add_assoc, Nat.add_comm 1 j]

theorem LoopUntil_unassigned {s : State V} {ns : List (Addr × V)} (hch : Chained s ns)
    (h1 : 1 ≤ ns.length) {index : Nat} (e : Nat) (hidx : index = 0 ∨ ns.length ≤ index) :
    _List_LoopUntil s 1 e index = some none := by
  obtain ⟨hlen, hb, hs⟩ := hch
  cases ns with
  | nil => simp at h1
  | cons d ns =>
    obtain ⟨hp, nd, hr, hv, hs1⟩ := hs
    simp only [List.length_cons] at hb hidx
    have hl : loopUntil s.heap index (U64 + 1) 1 nd.next = some none :=
      loopUntil_unassigned hs1 1 (U64 + 1) (by
      intro j hj
      rw [Nat.mod_eq_of_lt (by omega)]
      omega) (by simp [U64]) (by omega)
    simp [_List_LoopUntil, hp, hr, hl]

end ListLemmas3

/-! ## The claims -/

section Claims
variable {V : Type}

/-- Claim C1: starting from `List_Construct`, any finite sequence of
`List_PushBack` and `List_PushFront` calls (each with `size != 0`, fewer than
`2 ^ 64` of them) runs to the end, the k-th call returns k, the final
`length` is the number of pushes, and for every `i` below the length
`List_GetNode` returns `LIST_OK` with a node whose payload is the i-th element
of the reference sequence (`PushBack` appends, `PushFront` prepends). -/
theorem C1_pushes_follow_reference_sequence (ops : List (Push V))
    (hsize : ∀ op ∈ ops, op.size ≠ 0) (hlen : ops.length < U64) :
    ∃ s, runPushes List_Construct ops = some (s, List.range' 1 ops.length) ∧
      s.list.length = ops.length ∧ (modelPushes ops).length = ops.length ∧
      ∀ i, i < ops.length → ∃ a, List_GetNode s i = some (LIST_OK, some (some a)) ∧
        outValue s.heap (some (some a)) = (modelPushes ops)[i]? := by
  obtain ⟨s, ns, hrun, hwf, hmod, hl⟩ :=
    runPushes_WF ops (WF_Construct : WF (List_Construct : State V) []) hsize (by simpa using hlen)
  simp only [List.length_nil, Nat.zero_add, List.map_nil] at hrun hmod hl
  refine ⟨s, hrun, by rw [hwf.chained.len, hl], by simpa using modelPushes_length ops [], ?_⟩
  intro i hi
  have hi' : i < ns.length := by omega
  refine ⟨ns[i].1, GetNode_WF hwf (List.getElem?_eq_getElem hi'), ?_⟩
  rw [outValue_mem hwf.chained.chain (List.getElem_mem hi'), modelPushes, ← hmod]
  simp [hi']

/-- Claim C1 at three pushes: back 7, front 5, back 9. -/
theorem C1_witness :
    (∀ op ∈ [Push.back 7 4, Push.front 5 4, Push.back 9 4], Push.size op ≠ 0) ∧
    [Push.back 7 4, Push.front 5 4, Push.back 9 4].length < U64 ∧
    ∃ s, runPushes List_Construct [Push.back 7 4, Push.front 5 4, Push.back 9 4]
        = some (s, List.range' 1 3) ∧
      s.list.length = 3 ∧ (modelPushes [Push.back 7 4, Push.front 5 4, Push.back 9 4]).length = 3 ∧
      ∀ i, i < 3 → ∃ a, List_GetNode s i = some (LIST_OK, some (some a)) ∧
        outValue s.heap (some (some a)) =
          (modelPushes [Push.back 7 4, Push.front 5 4, Push.back 9 4])[i]? :=
  ⟨by decide, by decide, C1_pushes_follow_reference_sequence
    [Push.back 7 4, Push.front 5 4, Push.back 9 4] (by decide) (by decide)⟩

/-- Claim C2 as stated fails: on the one-element list `[7]`, `List_Insert` at
index 0 returns `LIST_OK` and the list is then `[7, 9]`, not `[9, 7]`. -/
theorem C2_counterexample :
    WellFormed oneNode [7] ∧
    ∃ s', List_Insert oneNode 0 9 4 = some (s', LIST_OK) ∧ WellFormed s' [7, 9] ∧
      ¬ WellFormed s' ([7].take 0 ++ [9] ++ [7].drop 0) := by
  have h1 : WellFormed oneNode [7] :=
    ⟨[(0, 7)], ⟨⟨rfl, by decide, by simp [Seg, Heap.read, oneNode]⟩, rfl⟩, rfl⟩
  have h2 : WellFormed
      ({ heap := [some { value := 7, next := some 1, size := 4 },
                  some { value := 9, next := none, size := 4 }],
         list := { length := 2, head := some 0, tail := some 1 } } : State Nat) [7, 9] :=
    ⟨[(0, 7), (1, 9)], ⟨⟨rfl, by decide, by simp [Seg, Heap.read]⟩, rfl⟩, rfl⟩
  refine ⟨h1, _, by decide, h2, ?_⟩
  intro h3
  exact absurd (WellFormed.unique h2 h3) (by decide)

/-- Claim C2, amended: on a well-formed list with element sequence `xs`, for
an index below the length that is not the index 1 of a list of three or more
elements, `List_Insert` with `size != 0` returns `LIST_OK`; the new list is
well formed, one longer, and its sequence is `xs ++ [v]` when `index` is the
last index and `take index xs ++ [v] ++ drop index xs` otherwise. -/
theorem C2_insert_by_position (s : State V) (xs : List V) (hwf : WellFormed s xs) (index : Nat)
    (hidx : index < xs.length) (v : V) (size : Nat) (hsz : size ≠ 0)
    (hroom : xs.length + 1 < U64) (hcase : ¬(index = 1 ∧ 3 ≤ xs.length)) :
    ∃ s', List_Insert s index v size = some (s', LIST_OK) ∧
      WellFormed s'
        (if index = xs.length - 1 then xs ++ [v] else xs.take index ++ [v] ++ xs.drop index) ∧
      s'.list.length = xs.length + 1 := by
  obtain ⟨ns, hns, rfl⟩ := hwf
  simp only [List.length_map] at hidx hroom hcase ⊢
  have hne : ns ≠ [] := List.ne_nil_of_length_pos (by omega)
  by_cases hl : index = ns.length - 1
  · obtain ⟨s', h1, h2⟩ := Insert_last hns hne v hsz hroom
    subst hl
    refine ⟨s', h1, ⟨_, h2, by simp⟩, ?_⟩
    rw [h2.chained.len]; simp
  · rw [if_neg hl]
    by_cases h0 : index = 0
    · subst h0
      obtain ⟨s', h1, h2⟩ := Insert_first hns (by omega) v hsz hroom
      refine ⟨s', h1, ⟨_, h2, by simp⟩, ?_⟩
      rw [h2.chained.len]; simp
    · have hi1 : index - 1 < ns.length := by omega
      have hsplit : ns = ns.take (index - 1) ++ ns[index - 1] :: ns.drop index := by
        conv_lhs => rw [← List.take_append_drop (index - 1) ns, List.drop_eq_getElem_cons hi1]
        rw [show index - 1 + 1 = index by omega]
      have hpl : (ns.take (index - 1)).length = index - 1 := by
        rw [List.length_take]; omega
      have hwf1 : WF s (ns.take (index - 1) ++ ns[index - 1] :: ns.drop index) := by
        rw [← hsplit]; exact hns
      obtain ⟨s', h1, h2⟩ := Insert_mid hwf1
        (List.ne_nil_of_length_pos (by rw [hpl]; omega))
        (by rw [List.length_drop]; omega) v hsz (by rw [← hsplit]; exact hroom)
      rw [hpl, show index - 1 + 1 = index by omega] at h1
      refine ⟨s', h1, ⟨_, h2, ?_⟩, ?_⟩
      · have htake : ns.take index = ns.take (index - 1) ++ [ns[index - 1]] := by
          conv_lhs => rw [show index = index - 1 + 1 by omega]
          rw [List.take_succ, List.getElem?_eq_getElem hi1]; rfl
        have hmt : (ns.map Prod.snd).take index = (ns.take index).map Prod.snd := by
          simp [List.map_take]
        have hmd : (ns.map Prod.snd).drop index = (ns.drop index).map Prod.snd := by
          simp [List.map_drop]
        rw [hmt, hmd, htake]
        simp only [List.map_append, List.map_cons, List.map_nil, List.append_assoc,
          List.singleton_append, List.cons_append, List.nil_append]
      · rw [h2.chained.len]
        simp only [List.length_append, List.length_cons, hpl, List.length_drop]
        omega

/-- Claim C2 amended, at the list `[7, 8, 9, 10]` and index 2. -/
theorem C2_witness :
    WellFormed fourNodes [7, 8, 9, 10] ∧ 2 < [7, 8, 9, 10].length ∧ 4 ≠ 0 ∧
    [7, 8, 9, 10].length + 1 < U64 ∧ ¬(2 = 1 ∧ 3 ≤ [7, 8, 9, 10].length) ∧
    ∃ s', List_Insert fourNodes 2 1 4 = some (s', LIST_OK) ∧
      WellFormed s'
        (if 2 = [7, 8, 9, 10].length - 1 then [7, 8, 9, 10] ++ [1]
          else [7, 8, 9, 10].take 2 ++ [1] ++ [7, 8, 9, 10].drop 2) ∧
      s'.list.length = [7, 8, 9, 10].length + 1 :=
  have h4 : WellFormed fourNodes [7, 8, 9, 10] :=
    ⟨[(0, 7), (1, 8), (2, 9), (3, 10)],
      ⟨⟨rfl, by decide, by simp [Seg, Heap.read, fourNodes]⟩, rfl⟩, rfl⟩
  ⟨h4, by decide, by decide, by decide, by decide,
    C2_insert_by_position fourNodes [7, 8, 9, 10] h4 2 (by decide) 1 4 (by decide) (by decide)
      (by decide)⟩

/-- Claim C3 at the list `[7, 8, 9]` built by three `List_PushBack` calls:
`List_Pop` at the last index 2 returns `LIST_OK` and the node holding 9 and
leaves length 2, but `tail` still points to the detached node, so
`List_GetNode` at index 1 then yields the node holding 9 where the sequence
with position 2 erased has 8; and `List_Pop` at index 1 has no defined result,
its local `before` being read uninitialised. -/
theorem C3_pop_failing_input :
    runPushes (List_Construct : State Nat) [.back 7 4, .back 8 4, .back 9 4]
      = some (threeNodes, [1, 2, 3]) ∧
    List_Pop threeNodes 2 = some (threeNodesPopped, LIST_OK, some (some 2)) ∧
    outValue threeNodesPopped.heap (some (some 2)) = some 9 ∧
    threeNodesPopped.list.length = 2 ∧
    List_GetNode threeNodesPopped 1 = some (LIST_OK, some (some 2)) ∧
    ([7, 8, 9].eraseIdx 2)[1]? = some 8 ∧
    List_Pop threeNodes 1 = none := by
  decide

/-- Claim C4: pushing the values `vs` (each with `size != 0`, fewer than
`2 ^ 64` of them) onto an empty list with `List_PushBack` and then calling
`List_Pop` at index 0 as many times yields, call by call, `LIST_OK` and the
values in insertion order, and leaves length 0; with `List_PushFront` the
values come out in reverse order. -/
theorem C4_push_pop_round_trip (vs : List (V × Nat)) (hsize : ∀ p ∈ vs, p.2 ≠ 0)
    (hlen : vs.length < U64) :
    (∃ s s', runPushes List_Construct (vs.map fun p => Push.back p.1 p.2)
          = some (s, List.range' 1 vs.length) ∧
        popFront vs.length s = some (s', vs.map fun p => (LIST_OK, some p.1)) ∧
        s'.list.length = 0) ∧
    (∃ s s', runPushes List_Construct (vs.map fun p => Push.front p.1 p.2)
          = some (s, List.range' 1 vs.length) ∧
        popFront vs.length s = some (s', vs.reverse.map fun p => (LIST_OK, some p.1)) ∧
        s'.list.length = 0) := by
  constructor
  · obtain ⟨s, s', h1, h2, h3⟩ := push_then_popFront (vs.map fun p => Push.back p.1 p.2)
      (by
        intro op hop
        obtain ⟨p, hp, rfl⟩ := List.mem_map.1 hop
        exact hsize p hp) (by simpa using hlen)
    refine ⟨s, s', by simpa using h1, ?_, h3⟩
    rw [List.length_map] at h2
    rw [h2, modelPushes, foldl_model_back]
    simp
  · obtain ⟨s, s', h1, h2, h3⟩ := push_then_popFront (vs.map fun p => Push.front p.1 p.2)
      (by
        intro op hop
        obtain ⟨p, hp, rfl⟩ := List.mem_map.1 hop
        exact hsize p hp) (by simpa using hlen)
    refine ⟨s, s', by simpa using h1, ?_, h3⟩
    rw [List.length_map] at h2
    rw [h2, modelPushes, foldl_model_front]
    simp

/-- Claim C4 at the values 7, 8, 9. -/
theorem C4_witness :
    (∀ p ∈ [(7, 4), (8, 4), (9, 4)], p.2 ≠ 0) ∧ [(7, 4), (8, 4), (9, 4)].length < U64 ∧
    (∃ s s', runPushes List_Construct ([(7, 4), (8, 4), (9, 4)].map fun p => Push.back p.1 p.2)
          = some (s, List.range' 1 [(7, 4), (8, 4), (9, 4)].length) ∧
        popFront [(7, 4), (8, 4), (9, 4)].length s
          = some (s', [(7, 4), (8, 4), (9, 4)].map fun p => (LIST_OK, some p.1)) ∧
        s'.list.length = 0) ∧
    (∃ s s', runPushes List_Construct ([(7, 4), (8, 4), (9, 4)].map fun p => Push.front p.1 p.2)
          = some (s, List.range' 1 [(7, 4), (8, 4), (9, 4)].length) ∧
        popFront [(7, 4), (8, 4), (9, 4)].length s
          = some (s', [(7, 4), (8, 4), (9, 4)].reverse.map fun p => (LIST_OK, some p.1)) ∧
        s'.list.length = 0) :=
  ⟨by decide, by decide,
    C4_push_pop_round_trip [(7, 4), (8, 4), (9, 4)] (by decide) (by decide)⟩

/-- Claim C5 at the empty list and index 0: `List_GetNode`, `List_Pop` and
`List_FreeItem` return `LIST_INDEX_ERROR` and leave the list as it is, but
`List_Get` has no defined result: after `List_GetNode` failed it reads
`node->value` through its local `node`, which was never assigned. -/
theorem C5_get_on_empty_list :
    List_GetNode (List_Construct : State Nat) 0 = some (LIST_INDEX_ERROR, none) ∧
    List_Pop (List_Construct : State Nat) 0 = some (List_Construct, LIST_INDEX_ERROR, none) ∧
    List_FreeItem (List_Construct : State Nat) 0 = some (List_Construct, LIST_INDEX_ERROR) ∧
    List_Get (List_Construct : State Nat) 0 = none := by
  decide

/-- Claim C6 as stated fails: `List_Insert` on the empty list returns
`LIST_OK` and the list has one element afterwards. -/
theorem C6_counterexample :
    List_Insert (List_Construct : State Nat) 0 7 4 = some (oneNode, LIST_OK) ∧
    oneNode.list.length = 1 ∧ WellFormed oneNode [7] :=
  ⟨by decide, rfl,
    ⟨[(0, 7)], ⟨⟨rfl, by decide, by simp [Seg, Heap.read, oneNode]⟩, rfl⟩, rfl⟩⟩

/-- Claim C6, amended: on every list of length 0, for every index and every
value with `size != 0`, `List_Insert` takes the `List_PushBack` branch and
returns `LIST_OK`; afterwards the list has length 1 and `head` and `tail`
both point to the new node, which holds the value. -/
theorem C6_insert_into_empty_pushes (s : State V) (hempty : s.list.length = 0) (index : Nat)
    (v : V) (size : Nat) (hsz : size ≠ 0) :
    List_Insert s index v size
      = some ({ heap := s.heap ++ [some { value := v, next := none, size := size }],
                list := { length := 1, head := some s.heap.length,
                          tail := some s.heap.length } }, LIST_OK) := by
  simp [List_Insert, List_PushBack, List_IsEmpty, hempty, LNode_Construct, hsz, Heap.alloc, U64]

/-- Claim C6 amended, at the empty list, index 5 and value 7. -/
theorem C6_witness :
    (List_Construct : State Nat).list.length = 0 ∧ 4 ≠ 0 ∧
    List_Insert (List_Construct : State Nat) 5 7 4
      = some ({ heap := (List_Construct : State Nat).heap ++
                  [some { value := 7, next := none, size := 4 }],
                list := { length := 1, head := some (List_Construct : State Nat).heap.length,
                          tail := some (List_Construct : State Nat).heap.length } }, LIST_OK) :=
  ⟨rfl, by decide, C6_insert_into_empty_pushes List_Construct rfl 5 7 4 (by decide)⟩

/-- Claim C7 as stated fails: on the one-element list, index 1 makes
`List_GetNode`, `List_Insert`, `List_Pop` and `List_FreeItem` return
`LIST_INDEX_ERROR`, the very status they return (`List_Insert` apart, which
succeeds) on the empty list. -/
theorem C7_counterexample :
    (List_GetNode oneNode 1).map Prod.fst = some LIST_INDEX_ERROR ∧
    (List_GetNode (List_Construct : State Nat) 1).map Prod.fst = some LIST_INDEX_ERROR ∧
    (List_Insert oneNode 1 9 4).map Prod.snd = some LIST_INDEX_ERROR ∧
    (List_Pop oneNode 1).map (fun r => r.2.1) = some LIST_INDEX_ERROR ∧
    (List_Pop (List_Construct : State Nat) 1).map (fun r => r.2.1) = some LIST_INDEX_ERROR ∧
    (List_FreeItem oneNode 1).map Prod.snd = some LIST_INDEX_ERROR ∧
    (List_FreeItem (List_Construct : State Nat) 1).map Prod.snd = some LIST_INDEX_ERROR := by
  decide

/-- Claim C7, amended: on every list of length other than 0 and for every
index at or beyond the length, `List_GetNode`, `List_Insert`, `List_Pop` and
`List_FreeItem` return `LIST_INDEX_ERROR` and leave the state as it is; this
is the status `List_GetNode`, `List_Pop` and `List_FreeItem` return on a list
of length 0 as well. -/
theorem C7_index_beyond_length (s : State V) (hne : s.list.length ≠ 0) (index : Nat)
    (hidx : s.list.length ≤ index) (v : V) (size : Nat) :
    List_GetNode s index = some (LIST_INDEX_ERROR, none) ∧
    List_Insert s index v size = some (s, LIST_INDEX_ERROR) ∧
    List_Pop s index = some (s, LIST_INDEX_ERROR, none) ∧
    List_FreeItem s index = some (s, LIST_INDEX_ERROR) ∧
    ∀ e : State V, e.list.length = 0 →
      List_GetNode e index = some (LIST_INDEX_ERROR, none) ∧
      List_Pop e index = some (e, LIST_INDEX_ERROR, none) ∧
      List_FreeItem e index = some (e, LIST_INDEX_ERROR) := by
  have hr : List_InRange s.list index = false := by
    simp only [List_InRange, ge_iff_le, Nat.zero_le, decide_True, Bool.true_and,
      decide_eq_false_iff_not]
    omega
  have hl := isLast_of_length_le hne hidx
  have hf : List_IsFirst s.list index = false := by
    simp only [List_IsFirst, beq_eq_false_iff_ne]; omega
  have he : List_IsEmpty s.list = false := by
    simp only [List_IsEmpty, beq_eq_false_iff_ne]; exact hne
  refine ⟨?_, ?_, ?_, ?_, ?_⟩
  · simp [List_GetNode, he, hr]
  · simp [List_Insert, he, hl, hf, hr]
  · simp [List_Pop, he, hidx]
  · simp [List_FreeItem, hr]
  · intro e hempty
    have h := empty_list_calls e hempty index
    exact ⟨h.1, h.2.1, h.2.2.1⟩

/-- Claim C7 amended, at the one-element list and index 3. -/
theorem C7_witness :
    oneNode.list.length ≠ 0 ∧ oneNode.list.length ≤ 3 ∧
    List_GetNode oneNode 3 = some (LIST_INDEX_ERROR, none) ∧
    List_Insert oneNode 3 9 4 = some (oneNode, LIST_INDEX_ERROR) ∧
    List_Pop oneNode 3 = some (oneNode, LIST_INDEX_ERROR, none) ∧
    List_FreeItem oneNode 3 = some (oneNode, LIST_INDEX_ERROR) ∧
    ∀ e : State Nat, e.list.length = 0 →
      List_GetNode e 3 = some (LIST_INDEX_ERROR, none) ∧
      List_Pop e 3 = some (e, LIST_INDEX_ERROR, none) ∧
      List_FreeItem e 3 = some (e, LIST_INDEX_ERROR) :=
  ⟨by decide, by decide, C7_index_beyond_length oneNode (by decide) 3 (by decide) 9 4⟩

/-- Claim C8 at a new map of capacity 2 and the key at address 100: the key
hashes to bucket 1 and the lookup of that bucket returns `cs_OK`, but
`CS_LIST_GET` received `slot` by value, so `slot` is still NULL when
`cs_List_IsEmpty(slot)` reads it: the first `cs_Hashmap_Set` has no defined
result, and no bucket ever holds a pair for the key. -/
theorem C8_first_set_meets_null_slot :
    cs_Hashmap_Hash stringMem (cs_Hashmap_New shallowType 2) 100 = some 1 ∧
    CS_LIST_GET (cs_Hashmap_New shallowType 2).slots 1 none = cs_OK ∧
    (cs_Hashmap_Set stringMem (cs_Hashmap_New shallowType 2) 100 1).isNone = true ∧
    (cs_Hashmap_New shallowType 2).contents = [[], []] := by
  decide

/-- Claim C9 at a new map of capacity 1 and the key at address 100: `count`
is 0 after `cs_Hashmap_New`, and the first `cs_Hashmap_Set` has no defined
result (it reads the NULL `slot` after a successful lookup), so `count` never
becomes 1. -/
theorem C9_count_not_reached :
    (cs_Hashmap_New shallowType 1).count = 0 ∧
    CS_LIST_GET (cs_Hashmap_New shallowType 1).slots 0 none = cs_OK ∧
    (cs_Hashmap_Set stringMem (cs_Hashmap_New shallowType 1) 100 5).isNone = true := by
  decide

end Claims

/-! ## The claims on the hash map and on the list invariants -/

section Claims2
variable {V : Type}

/-- Claim C11 at a new map of capacity 2 and the key at address 300: the
bucket index 0 is below `slots.length` and the lookup returns `cs_OK`, as the
claim says, but the call does not return `cs_OK`: `slot`, passed to
`CS_LIST_GET` by value, is still NULL when it is dereferenced, and the call
has no defined result. -/
theorem C11_set_does_not_return :
    cs_Hashmap_Hash stringMem (cs_Hashmap_New shallowType 2) 300 = some 0 ∧
    0 < (cs_Hashmap_New shallowType 2).slots.length ∧
    CS_LIST_GET (cs_Hashmap_New shallowType 2).slots 0 none = cs_OK ∧
    (runSets stringMem (cs_Hashmap_New shallowType 2) [⟨300, 2⟩]).isNone = true := by
  decide

/-- Claim C12 at a new map of capacity 1 and the keys at addresses 100 ("a")
and 300 ("b"), which share the one bucket: in either order the first
`cs_Hashmap_Set` has no defined result (NULL `slot`), so the bucket never
holds the two pairs. -/
theorem C12_no_pair_is_stored :
    cs_Hashmap_Hash stringMem (cs_Hashmap_New shallowType 1) 100
      = cs_Hashmap_Hash stringMem (cs_Hashmap_New shallowType 1) 300 ∧
    (cs_Hashmap_Set stringMem (cs_Hashmap_New shallowType 1) 100 1).isNone = true ∧
    (cs_Hashmap_Set stringMem (cs_Hashmap_New shallowType 1) 300 2).isNone = true ∧
    (runSets stringMem (cs_Hashmap_New shallowType 1) [⟨100, 1⟩, ⟨300, 2⟩]).isNone = true ∧
    (runSets stringMem (cs_Hashmap_New shallowType 1) [⟨300, 2⟩, ⟨100, 1⟩]).isNone = true := by
  decide

/-- Claim C15 at the calls `PushBack` 7, 8, 9, `Pop` at index 2, `PushBack`
10: `List_Pop` leaves `tail` on the detached node, the last `List_PushBack`
links the new node behind that node, and the state has `length` 3 with two
nodes reachable from `head`. -/
theorem C15_length_after_pop_then_push :
    (runOps (List_Construct : State Nat)
        [.pushBack 7 4, .pushBack 8 4, .pushBack 9 4, .pop 2, .pushBack 10 4]).map
      (fun s => (s.list.length, reachableNodes s)) = some (3, some 2) := by
  decide

/-- Claim C16 at the calls `PushBack` 7, 8, 9, `Pop` at index 2: the state
has length 2, the last node reachable from `head` (one step from it) is at
address 1, `tail` is the detached node at address 2, and `List_GetNode` at
index `length - 1` returns that detached node. -/
theorem C16_tail_after_pop_last :
    runOps (List_Construct : State Nat) [.pushBack 7 4, .pushBack 8 4, .pushBack 9 4, .pop 2]
      = some threeNodesPopped ∧
    threeNodesPopped.list.length = 2 ∧
    threeNodesPopped.list.tail = some 2 ∧
    walk threeNodesPopped.heap (threeNodesPopped.list.length - 1) threeNodesPopped.list.head
      = some (some 1) ∧
    reachableNodes threeNodesPopped = some 2 ∧
    List_GetNode threeNodesPopped (threeNodesPopped.list.length - 1)
      = some (LIST_OK, some (some 2)) := by
  decide

/-- Claim C17 at the calls `PushBack` 7, `Pop` at index 0: the state has
length 0 and `head` NULL, and `tail` still points to the popped node; the
same holds after `List_FreeItem` at index 0, where the node has been freed.
`List_Clear` does reset `tail`. -/
theorem C17_tail_after_pop_only_node :
    (runOps (List_Construct : State Nat) [.pushBack 7 4, .pop 0]).map (fun s => s.list)
      = some { length := 0, head := none, tail := some 0 } ∧
    (runOps (List_Construct : State Nat) [.pushBack 7 4, .freeItem 0]).map (fun s => s.list)
      = some { length := 0, head := none, tail := some 0 } ∧
    (runOps (List_Construct : State Nat) [.pushBack 7 4, .clear]).map (fun s => s.list)
      = some { length := 0, head := none, tail := none } := by
  decide

/-- Claim C18: on a list whose chain from `head` has `length` nodes, at least
two, and for every `u64` index, `_List_LoopUntil(list, 1, length, index, &out)`
returns, and it assigns `out` exactly when `1 <= index < length`, to the node
at position `index`.  Called with `index - 1`, as `List_Insert` and `List_Pop`
do, it assigns exactly when `2 <= index <= length`; so `List_Pop` at index 1,
and `List_Insert` at index 1 of a list of three or more nodes, read `before`
unassigned and have no defined result. -/
theorem C18_loop_until_assigns_from_position_one (s : State V) (ns : List (Addr × V))
    (hch : Chained s ns) (h2 : 2 ≤ ns.length) (index : Nat) (hidx : index < U64) :
    _List_LoopUntil s 1 ns.length index
      = some (if h : 1 ≤ index ∧ index < ns.length then some (ns.get ⟨index, h.2⟩).1 else none) ∧
    _List_LoopUntil s 1 ns.length ((index + U64 - 1) % U64)
      = some (if h : 2 ≤ index ∧ index ≤ ns.length
          then some (ns.get ⟨index - 1, by omega⟩).1 else none) ∧
    List_Pop s 1 = none ∧
    (3 ≤ ns.length → ∀ (v : V) (size : Nat), List_Insert s 1 v size = none) := by
  have hb := hch.bound
  have hmain : ∀ j, j < U64 → _List_LoopUntil s 1 ns.length j
      = some (if h : 1 ≤ j ∧ j < ns.length then some (ns.get ⟨j, h.2⟩).1 else none) := by
    intro j _
    by_cases h : 1 ≤ j ∧ j < ns.length
    · rw [dif_pos h]
      exact LoopUntil_Chained hch h.1 (List.getElem?_eq_getElem h.2)
    · rw [dif_neg h]
      exact LoopUntil_unassigned hch (by omega) _ (by omega)
  have hzero : _List_LoopUntil s 1 s.list.length 0 = some none :=
    LoopUntil_unassigned hch (by omega) _ (Or.inl rfl)
  have hemp : List_IsEmpty s.list = false := by
    simp only [List_IsEmpty, hch.len, beq_eq_false_iff_ne]; omega
  have hne : ns ≠ [] := List.ne_nil_of_length_pos (by omega)
  refine ⟨hmain index hidx, ?_, ?_, ?_⟩
  · by_cases h0 : index = 0
    · subst h0
      have hU : (0 + U64 - 1) % U64 = U64 - 1 := by
        rw [Nat.zero_add]; exact Nat.mod_eq_of_lt (by omega)
      rw [hU, dif_neg (by omega)]
      exact LoopUntil_unassigned hch (by omega) _ (Or.inr (by omega))
    · rw [u64_pred (by omega) hidx, hmain (index - 1) (by omega)]
      by_cases h : 2 ≤ index ∧ index ≤ ns.length
      · rw [dif_pos h, dif_pos (by omega)]
      · rw [dif_neg h, dif_neg (by omega)]
  · have hlt : ¬ 1 ≥ s.list.length := by rw [hch.len]; omega
    simp [List_Pop, hemp, hlt, List_IsFirst, hzero]
  · intro h3 v size
    have hlast : List_IsLast s.list 1 = false := by
      rw [isLast_WF hch hne, decide_eq_false_iff_not]; omega
    have hrng : List_InRange s.list 1 = true := by
      simp only [List_InRange, hch.len, ge_iff_le, Nat.zero_le, decide_True, Bool.true_and,
        decide_eq_true_eq]; omega
    simp [List_Insert, hemp, hlast, List_IsFirst, hrng, hzero]

/-- Claim C18 at the list `[7, 8, 9]` and index 1. -/
theorem C18_witness :
    Chained threeNodes [(0, 7), (1, 8), (2, 9)] ∧ 2 ≤ [(0, 7), (1, 8), (2, 9)].length ∧ 1 < U64 ∧
    (_List_LoopUntil threeNodes 1 [(0, 7), (1, 8), (2, 9)].length 1
      = some (if h : 1 ≤ 1 ∧ 1 < [(0, 7), (1, 8), (2, 9)].length
          then some ([(0, 7), (1, 8), (2, 9)].get ⟨1, h.2⟩).1 else none) ∧
    _List_LoopUntil threeNodes 1 [(0, 7), (1, 8), (2, 9)].length ((1 + U64 - 1) % U64)
      = some (if h : 2 ≤ 1 ∧ 1 ≤ [(0, 7), (1, 8), (2, 9)].length
          then some ([(0, 7), (1, 8), (2, 9)].get ⟨1 - 1, by omega⟩).1 else none) ∧
    List_Pop threeNodes 1 = none ∧
    (3 ≤ [(0, 7), (1, 8), (2, 9)].length →
      ∀ (v : Nat) (size : Nat), List_Insert threeNodes 1 v size = none)) :=
  have hch : Chained threeNodes [(0, 7), (1, 8), (2, 9)] :=
    ⟨rfl, by decide, by simp [Seg, Heap.read, threeNodes]⟩
  ⟨hch, by decide, by decide,
    C18_loop_until_assigns_from_position_one threeNodes [(0, 7), (1, 8), (2, 9)] hch (by decide)
      1 (by decide)⟩

end Claims2

end CColls
